import Mathlib

/-!
# pgvector-go: the pgx sparse-vector codec

A shallow embedding of `pgx/sparsevec.go` (the `SparseVectorCodec` dispatcher and its
two binary plans) together with the sparse-vector data model and binary layout that
the dispatcher delegates to.

Conventions of the embedding:

* a Go `[]byte` is `Option (List Byte)`: `none` is the nil slice, `some bs` a present
  slice (possibly of length zero);
* a Go `any` is `GoAny`, a tagged value carrying its dynamic type;
* a `*pgvector.SparseVector` is passed by value-in / value-out: the plan's `Scan`
  returns the new content of its destination next to the Go `error`;
* a call that can panic returns an `Outcome`;
* a `float32` is carried as its IEEE-754 bit pattern (what `math.Float32bits` returns),
  so equality of values is equality of bit patterns.
-/

namespace PgvectorGo

/-! ## Primitive types -/

/-- One octet. -/
abbrev Byte := Fin 256

/-- Go `[]byte`: `none` is the nil slice, `some bs` a present slice. -/
abbrev ByteSlice := Option (List Byte)

/-- A `float32`, carried as its 32-bit pattern. -/
abbrev F32 := Fin 4294967296

/-- An unsigned 32-bit quantity, the range of one word of the wire layout. -/
abbrev Uint32 := Fin 4294967296

/-- Go `error` values that the codec can return. `errorf msg` is `fmt.Errorf(msg)`;
`MalformedInput` is the decode-time structural violation of the binary layout. -/
inductive GoError where
  | errorf (msg : String)
  | MalformedInput
  deriving DecidableEq, Repr

/-- The two run-time panics that the modelled code can raise. -/
inductive PanicKind where
  | interfaceConversion
  | nilDereference
  deriving DecidableEq, Repr

/-- Result of a Go call that may panic. -/
inductive Outcome (α : Type) where
  | ok (a : α)
  | panic (k : PanicKind)
  deriving DecidableEq, Repr

/-- `pgx.TextFormatCode` of jackc/pgx. -/
def TextFormatCode : Int := 0

/-- `pgx.BinaryFormatCode` of jackc/pgx. -/
def BinaryFormatCode : Int := 1

/-! ## Data model -/

/-- Modelled from the spec: the `SparseVector` data model (its Go declaration lives in the
package root, outside `pgx/`): a `dimension` and the ordered `(index, value)` entries.
The dimension is a 32-bit quantity: the layout carries it in one 4-byte unsigned word. -/
structure SparseVector where
  dimension : Uint32
  entries : List (Nat × F32)
  deriving DecidableEq, Repr

/-- The Go zero value of `pgvector.SparseVector` (what `var vec pgvector.SparseVector` holds). -/
def SparseVector.zero : SparseVector := { dimension := 0, entries := [] }

/-- The indices of the entries, in stored order. -/
def SparseVector.indices (v : SparseVector) : List Nat := v.entries.map Prod.fst

/-- The values of the entries, in stored order. -/
def SparseVector.values (v : SparseVector) : List F32 := v.entries.map Prod.snd

/-- The data-model invariant: indices strictly increasing (hence unique) and in
`[0, dimension)`. -/
def SparseVector.WellFormed (v : SparseVector) : Prop :=
  List.Chain' (· < ·) v.indices ∧ ∀ i ∈ v.indices, i < v.dimension.val

/-- A float is zero when it is `+0` or `-0` (Go's `x == 0`). -/
def F32.isZero (x : F32) : Bool := x.val == 0 || x.val == 2147483648

/-- Entries of a dense list whose first element sits at position `i`. -/
def denseEntries (i : Nat) : List F32 → List (Nat × F32)
  | [] => []
  | x :: xs => if F32.isZero x then denseEntries (i + 1) xs else (i, x) :: denseEntries (i + 1) xs

/-- Conversion of an integer to `uint32`. -/
def uint32OfNat (n : Nat) : Uint32 := ⟨n % 4294967296, Nat.mod_lt _ (by decide)⟩

/-- Modelled from the spec: `NewSparseVector` (`fromDense`), defined in the package root:
drops the zero entries of a dense array and records the rest in index order; the
dimension is the length of the array. -/
def NewSparseVector (vec : List F32) : SparseVector :=
  { dimension := uint32OfNat vec.length, entries := denseEntries 0 vec }

/-- Modelled from the spec: `SparseVector.Slice` (`toDense`), defined in the package root:
`dimension` floats with zeros at unlisted positions. -/
def SparseVector.Slice (v : SparseVector) : List F32 :=
  (List.range v.dimension.val).map (fun i => (v.entries.lookup i).getD 0)

/-! ## Binary layout -/

/-- `binary.BigEndian.AppendUint32` of `uint32(n)`: the four octets of `n mod 2^32`. -/
def putUint32 (n : Nat) : List Byte :=
  [⟨n / 16777216 % 256, Nat.mod_lt _ (by decide)⟩,
   ⟨n / 65536 % 256, Nat.mod_lt _ (by decide)⟩,
   ⟨n / 256 % 256, Nat.mod_lt _ (by decide)⟩,
   ⟨n % 256, Nat.mod_lt _ (by decide)⟩]

/-- A run of big-endian 32-bit words. -/
def putUint32s : List Nat → List Byte
  | [] => []
  | n :: ns => putUint32 n ++ putUint32s ns

/-- `binary.BigEndian.Uint32` on four octets. -/
def be32 (b0 b1 b2 b3 : Byte) : Nat :=
  b0.val * 16777216 + b1.val * 65536 + b2.val * 256 + b3.val

/-- Reads consecutive big-endian 32-bit words; a trailing run of fewer than four octets
is not a word. -/
def readUint32s : List Byte → List Nat
  | b0 :: b1 :: b2 :: b3 :: rest => be32 b0 b1 b2 b3 :: readUint32s rest
  | _ => []

/-- `math.Float32frombits` on a decoded word. -/
def f32OfBits (n : Nat) : F32 := ⟨n % 4294967296, Nat.mod_lt _ (by decide)⟩

/-- Adjacent-pair check that a list of indices is strictly increasing. -/
def strictlyIncreasing : List Nat → Bool
  | a :: b :: rest => decide (a < b) && strictlyIncreasing (b :: rest)
  | _ => true

/-- Modelled from the spec: the wire layout written by `SparseVector.EncodeBinary`
(defined in the package root): dimension, nonzero-count, a reserved zero word, the
indices, then the values, all big-endian 32-bit. -/
def SparseVector.layout (v : SparseVector) : List Byte :=
  putUint32 v.dimension.val ++ (putUint32 v.entries.length ++ (putUint32 0 ++
    (putUint32s v.indices ++ putUint32s (v.values.map Fin.val))))

/-- Modelled from the spec: `SparseVector.EncodeBinary` (defined in the package root):
appends the layout to `buf` and returns the extended buffer; it has no failure path. -/
def SparseVector.EncodeBinary (v : SparseVector) (buf : ByteSlice) : ByteSlice × Option GoError :=
  (some (buf.getD [] ++ v.layout), none)

/-- Modelled from the spec: the parse performed by `SparseVector.DecodeBinary` (defined in
the package root). `MalformedInput` when fewer than 12 octets are present, when the
remaining length is not `8 * nonzero-count`, when an index is not below the dimension,
or when the indices are not strictly increasing; the reserved word is ignored. -/
def SparseVector.decode (buf : List Byte) : Except GoError SparseVector :=
  if buf.length < 12 then .error .MalformedInput
  else
    let header := readUint32s (buf.take 12)
    let dimension := header.getD 0 0
    let nnz := header.getD 1 0
    let body := buf.drop 12
    if body.length ≠ 8 * nnz then .error .MalformedInput
    else
      let indices := readUint32s (body.take (4 * nnz))
      let values := (readUint32s (body.drop (4 * nnz))).map f32OfBits
      if indices.all (fun i => decide (i < dimension)) && strictlyIncreasing indices then
        .ok { dimension := uint32OfNat dimension, entries := indices.zip values }
      else .error .MalformedInput

/-- Modelled from the spec: `(*SparseVector).DecodeBinary` (defined in the package root).
`recv` is the receiver: `none` for a nil pointer, `some v` for a pointer to `v`. The
result carries the content behind the receiver after the call and the returned error.
A failed parse leaves the receiver untouched (no partial result); a successful parse
is stored through the receiver, which a nil receiver cannot take. -/
def SparseVector.DecodeBinary (recv : Option SparseVector) (buf : ByteSlice) :
    Outcome (Option SparseVector × Option GoError) :=
  match SparseVector.decode (buf.getD []) with
  | .error e => .ok (recv, some e)
  | .ok v =>
    match recv with
    | none => .panic .nilDereference
    | some _ => .ok (some v, none)

/-! ## Dynamic values -/

/-- The dynamic types that the dispatcher distinguishes. -/
inductive GoType where
  | untyped
  | SparseVector
  | ptrSparseVector
  | string
  | other (tag : Nat)
  deriving DecidableEq, Repr

/-- A Go `any`: the nil interface, a `pgvector.SparseVector`, a `*pgvector.SparseVector`
(nil, or pointing at a vector), a `string`, or a value of some other dynamic type
identified by a tag. -/
inductive GoAny where
  | nil
  | sparseVector (v : SparseVector)
  | ptrSparseVector (p : Option SparseVector)
  | string (s : String)
  | other (tag : Nat)
  deriving DecidableEq, Repr

/-- Dynamic type of an interface value. -/
def GoAny.typeOf : GoAny → GoType
  | .nil => .untyped
  | .sparseVector _ => .SparseVector
  | .ptrSparseVector _ => .ptrSparseVector
  | .string _ => .string
  | .other t => .other t

/-- Content of the local `vec` after a plan has scanned into `&vec`: what the
destination now points at. -/
def GoAny.load (dst : GoAny) (old : SparseVector) : SparseVector :=
  match dst with
  | .ptrSparseVector (some v) => v
  | _ => old

/-! ## pgx/sparsevec.go -/

/-- The `pgtype.EncodePlan` values that this file produces. -/
inductive EncodePlan where
  | encodePlanSparseVectorCodecBinary
  deriving DecidableEq, Repr

/-- The `pgtype.ScanPlan` values that this file produces. -/
inductive ScanPlan where
  | scanPlanSparseVectorCodecBinary
  deriving DecidableEq, Repr

/-- `SparseVectorCodec.FormatSupported`. -/
def SparseVectorCodec.FormatSupported (format : Int) : Bool :=
  format == BinaryFormatCode

/-- `SparseVectorCodec.PreferredFormat`. -/
def SparseVectorCodec.PreferredFormat : Int := BinaryFormatCode

/-- `SparseVectorCodec.PlanEncode`: `none` is the nil plan. -/
def SparseVectorCodec.PlanEncode {Map : Type} (_m : Option Map) (_oid : Nat) (format : Int)
    (value : GoAny) : Option EncodePlan :=
  match value with
  | .sparseVector _ =>
    if format = BinaryFormatCode then some .encodePlanSparseVectorCodecBinary
    else none
  | _ => none

/-- `encodePlanSparseVectorCodecBinary.Encode`: the unchecked assertion
`value.(pgvector.SparseVector)` followed by `EncodeBinary`. -/
def encodePlanSparseVectorCodecBinary.Encode (value : GoAny) (buf : ByteSlice) :
    Outcome (ByteSlice × Option GoError) :=
  match value with
  | .sparseVector v => .ok (v.EncodeBinary buf)
  | _ => .panic .interfaceConversion

/-- `SparseVectorCodec.PlanScan`: `none` is the nil plan. -/
def SparseVectorCodec.PlanScan {Map : Type} (_m : Option Map) (_oid : Nat) (format : Int)
    (target : GoAny) : Option ScanPlan :=
  match target with
  | .ptrSparseVector _ =>
    if format = BinaryFormatCode then some .scanPlanSparseVectorCodecBinary
    else none
  | _ => none

/-- `scanPlanSparseVectorCodecBinary.Scan`: the unchecked assertion
`dst.(*pgvector.SparseVector)` followed by `DecodeBinary`. Returns the destination
after the call and the error. -/
def scanPlanSparseVectorCodecBinary.Scan (src : ByteSlice) (dst : GoAny) :
    Outcome (GoAny × Option GoError) :=
  match dst with
  | .ptrSparseVector p =>
    match SparseVector.DecodeBinary p src with
    | .ok (p', err) => .ok (.ptrSparseVector p', err)
    | .panic k => .panic k
  | _ => .panic .interfaceConversion

/-- Method call through the `pgtype.EncodePlan` interface. -/
def EncodePlan.Encode (plan : EncodePlan) (value : GoAny) (buf : ByteSlice) :
    Outcome (ByteSlice × Option GoError) :=
  match plan with
  | .encodePlanSparseVectorCodecBinary => encodePlanSparseVectorCodecBinary.Encode value buf

/-- Method call through the `pgtype.ScanPlan` interface. -/
def ScanPlan.Scan (plan : ScanPlan) (src : ByteSlice) (dst : GoAny) :
    Outcome (GoAny × Option GoError) :=
  match plan with
  | .scanPlanSparseVectorCodecBinary => scanPlanSparseVectorCodecBinary.Scan src dst

/-- `SparseVectorCodec.DecodeValue`: the returned pair is `(value, error)`, with
`GoAny.nil` the nil value and `none` the nil error. -/
def SparseVectorCodec.DecodeValue {Map : Type} (m : Option Map) (oid : Nat) (format : Int)
    (src : ByteSlice) : Outcome (GoAny × Option GoError) :=
  match src with
  | none => .ok (.nil, none)
  | some _ =>
    let vec : SparseVector := SparseVector.zero
    match SparseVectorCodec.PlanScan m oid format (.ptrSparseVector (some vec)) with
    | none => .ok (.nil, some (.errorf "Unable to decode sparsevec type"))
    | some scanPlan =>
      match scanPlan.Scan src (.ptrSparseVector (some vec)) with
      | .panic k => .panic k
      | .ok (_, some err) => .ok (.nil, some err)
      | .ok (dst, none) => .ok (.sparseVector (dst.load vec), none)

/-- `SparseVectorCodec.DecodeDatabaseSQLValue`. -/
def SparseVectorCodec.DecodeDatabaseSQLValue {Map : Type} (m : Option Map) (oid : Nat)
    (format : Int) (src : ByteSlice) : Outcome (GoAny × Option GoError) :=
  SparseVectorCodec.DecodeValue m oid format src

/-! ## Dispatch -/

/-- C1: `PlanEncode` returns a plan (the binary encode plan) exactly when the value's
dynamic type is `pgvector.SparseVector` and the format is the binary format code, for
every type map and OID; in particular a `SparseVector` in the text format, and a string
or a `*SparseVector` in the binary format, get the nil plan. -/
theorem PlanEncode_plan_iff {Map : Type} (m : Option Map) (oid : Nat) (format : Int)
    (value : GoAny) :
    (SparseVectorCodec.PlanEncode m oid format value ≠ none ↔
        (value.typeOf = GoType.SparseVector ∧ format = BinaryFormatCode)) ∧
    SparseVectorCodec.PlanEncode m oid format value =
        (if value.typeOf = GoType.SparseVector ∧ format = BinaryFormatCode
         then some EncodePlan.encodePlanSparseVectorCodecBinary else none) ∧
    (∀ v, SparseVectorCodec.PlanEncode m oid TextFormatCode (GoAny.sparseVector v) = none) ∧
    (∀ s, SparseVectorCodec.PlanEncode m oid BinaryFormatCode (GoAny.string s) = none) ∧
    (∀ p, SparseVectorCodec.PlanEncode m oid BinaryFormatCode (GoAny.ptrSparseVector p) = none) := by
  refine ⟨?_, ?_, ?_, ?_, ?_⟩
  · cases value <;> simp [SparseVectorCodec.PlanEncode, GoAny.typeOf]
  · cases value <;> simp [SparseVectorCodec.PlanEncode, GoAny.typeOf]
  · intro v; simp [SparseVectorCodec.PlanEncode, TextFormatCode, BinaryFormatCode]
  · intro s; rfl
  · intro p; rfl

/-- C2: `PlanScan` returns a plan (the binary scan plan) exactly when the target's dynamic
type is `*pgvector.SparseVector` and the format is the binary format code, for every
type map and OID; otherwise it returns the nil plan. -/
theorem PlanScan_plan_iff {Map : Type} (m : Option Map) (oid : Nat) (format : Int)
    (target : GoAny) :
    (SparseVectorCodec.PlanScan m oid format target ≠ none ↔
        (target.typeOf = GoType.ptrSparseVector ∧ format = BinaryFormatCode)) ∧
    SparseVectorCodec.PlanScan m oid format target =
        (if target.typeOf = GoType.ptrSparseVector ∧ format = BinaryFormatCode
         then some ScanPlan.scanPlanSparseVectorCodecBinary else none) := by
  refine ⟨?_, ?_⟩
  · cases target <;> simp [SparseVectorCodec.PlanScan, GoAny.typeOf]
  · cases target <;> simp [SparseVectorCodec.PlanScan, GoAny.typeOf]

/-- C8: dispatch depends on the format and the dynamic type only: two `PlanEncode` calls
on values of the same dynamic type with the same format return the same plan, whatever
the type maps, OIDs and contents are, and likewise two `PlanScan` calls on targets of
the same dynamic type. (Both functions return a plan and nothing else: they have no
state to modify.) -/
theorem dispatch_depends_on_type_and_format {Map : Type} (m₁ m₂ : Option Map)
    (oid₁ oid₂ : Nat) (format : Int) (x y s t : GoAny)
    (hx : x.typeOf = y.typeOf) (ht : s.typeOf = t.typeOf) :
    SparseVectorCodec.PlanEncode m₁ oid₁ format x =
        SparseVectorCodec.PlanEncode m₂ oid₂ format y ∧
    SparseVectorCodec.PlanScan m₁ oid₁ format s =
        SparseVectorCodec.PlanScan m₂ oid₂ format t := by
  constructor
  · cases x <;> cases y <;> simp_all [SparseVectorCodec.PlanEncode, GoAny.typeOf]
  · cases s <;> cases t <;> simp_all [SparseVectorCodec.PlanScan, GoAny.typeOf]

/-- Witness for C8: two sparse vectors of different content, a nil and a non-nil pointer,
different maps and OIDs, in the binary format. -/
theorem dispatch_depends_on_type_and_format_witness :
    SparseVectorCodec.PlanEncode (some 7) 16385 1 (GoAny.sparseVector ⟨1, [(0, 5)]⟩) =
        SparseVectorCodec.PlanEncode (none : Option Nat) 0 1 (GoAny.sparseVector ⟨0, []⟩) ∧
    SparseVectorCodec.PlanScan (some 7) 16385 1 (GoAny.ptrSparseVector none) =
        SparseVectorCodec.PlanScan (none : Option Nat) 0 1
          (GoAny.ptrSparseVector (some ⟨1, [(0, 5)]⟩)) :=
  dispatch_depends_on_type_and_format (some 7) none 16385 0 1
    (GoAny.sparseVector ⟨1, [(0, 5)]⟩) (GoAny.sparseVector ⟨0, []⟩)
    (GoAny.ptrSparseVector none) (GoAny.ptrSparseVector (some ⟨1, [(0, 5)]⟩)) rfl rfl

/-- C10: `FormatSupported f` holds exactly for the binary format code; `PreferredFormat`
is the binary format code and is supported; a sparse-vector value gets an encode plan,
and a sparse-vector pointer a scan plan, exactly in the supported formats; and no value
or target gets a plan in an unsupported format. -/
theorem formats_consistent_with_planning {Map : Type} (m : Option Map) (oid : Nat)
    (f : Int) :
    (SparseVectorCodec.FormatSupported f = true ↔ f = BinaryFormatCode) ∧
    SparseVectorCodec.PreferredFormat = BinaryFormatCode ∧
    SparseVectorCodec.FormatSupported SparseVectorCodec.PreferredFormat = true ∧
    ((∃ value, SparseVectorCodec.PlanEncode m oid f value ≠ none) ↔
        SparseVectorCodec.FormatSupported f = true) ∧
    ((∃ target, SparseVectorCodec.PlanScan m oid f target ≠ none) ↔
        SparseVectorCodec.FormatSupported f = true) ∧
    (∀ v, SparseVectorCodec.PlanEncode m oid f (GoAny.sparseVector v) ≠ none ↔
        SparseVectorCodec.FormatSupported f = true) ∧
    (∀ p, SparseVectorCodec.PlanScan m oid f (GoAny.ptrSparseVector p) ≠ none ↔
        SparseVectorCodec.FormatSupported f = true) ∧
    (∀ value, SparseVectorCodec.FormatSupported f = false →
        SparseVectorCodec.PlanEncode m oid f value = none ∧
        SparseVectorCodec.PlanScan m oid f value = none) := by
  refine ⟨?_, rfl, ?_, ?_, ?_, ?_, ?_, ?_⟩
  · simp [SparseVectorCodec.FormatSupported]
  · simp [SparseVectorCodec.FormatSupported, SparseVectorCodec.PreferredFormat]
  · constructor
    · rintro ⟨value, hv⟩
      cases value <;> simp_all [SparseVectorCodec.PlanEncode, SparseVectorCodec.FormatSupported]
    · intro hf
      refine ⟨GoAny.sparseVector SparseVector.zero, ?_⟩
      simp_all [SparseVectorCodec.PlanEncode, SparseVectorCodec.FormatSupported]
  · constructor
    · rintro ⟨target, ht⟩
      cases target <;> simp_all [SparseVectorCodec.PlanScan, SparseVectorCodec.FormatSupported]
    · intro hf
      refine ⟨GoAny.ptrSparseVector none, ?_⟩
      simp_all [SparseVectorCodec.PlanScan, SparseVectorCodec.FormatSupported]
  · intro v; simp [SparseVectorCodec.PlanEncode, SparseVectorCodec.FormatSupported]
  · intro p; simp [SparseVectorCodec.PlanScan, SparseVectorCodec.FormatSupported]
  · intro value hf
    cases value <;>
      simp_all [SparseVectorCodec.PlanEncode, SparseVectorCodec.PlanScan,
        SparseVectorCodec.FormatSupported]

/-! ## Decoding to a generic value -/

/-- On a non-nil receiver `DecodeBinary` never panics: it stores the parsed vector, or
returns the error and leaves the receiver as it was. -/
theorem DecodeBinary_some (w : SparseVector) (buf : ByteSlice) :
    SparseVector.DecodeBinary (some w) buf =
      match SparseVector.decode (buf.getD []) with
      | .ok v => .ok (some v, none)
      | .error e => .ok (some w, some e) := by
  unfold SparseVector.DecodeBinary
  cases SparseVector.decode (buf.getD []) <;> rfl

/-- In the binary format `DecodeValue` on present bytes is the parse of those bytes. -/
theorem DecodeValue_binary_decode {Map : Type} (m : Option Map) (oid : Nat)
    (src : List Byte) :
    SparseVectorCodec.DecodeValue m oid BinaryFormatCode (some src) =
      match SparseVector.decode src with
      | .ok v => .ok (GoAny.sparseVector v, none)
      | .error e => .ok (GoAny.nil, some e) := by
  simp only [SparseVectorCodec.DecodeValue, SparseVectorCodec.PlanScan, if_true,
    ScanPlan.Scan, scanPlanSparseVectorCodecBinary.Scan, DecodeBinary_some, Option.getD_some]
  cases SparseVector.decode src <;> rfl

/-- In any other format `DecodeValue` on present bytes is the unsupported-conversion error. -/
theorem DecodeValue_other_format {Map : Type} (m : Option Map) (oid : Nat) (format : Int)
    (src : List Byte) (hf : format ≠ BinaryFormatCode) :
    SparseVectorCodec.DecodeValue m oid format (some src) =
      .ok (GoAny.nil, some (GoError.errorf "Unable to decode sparsevec type")) := by
  simp [SparseVectorCodec.DecodeValue, SparseVectorCodec.PlanScan, hf]

/-- C3: `DecodeValue` returns `(nil, nil)` exactly when `src` is the nil slice, in every
format; on present bytes (the present zero-length slice included) it returns either a
non-nil error with a nil value, or, with a nil error, the vector that the binary codec
decoded from those bytes into a zero-valued vector; the zero-length slice gets an error. -/
theorem DecodeValue_absent_iff {Map : Type} (m : Option Map) (oid : Nat) (format : Int) :
    SparseVectorCodec.DecodeValue m oid format none = .ok (GoAny.nil, none) ∧
    (∀ src : ByteSlice,
      SparseVectorCodec.DecodeValue m oid format src = .ok (GoAny.nil, none) ↔ src = none) ∧
    (∀ bs : List Byte,
      (∃ e, SparseVectorCodec.DecodeValue m oid format (some bs) = .ok (GoAny.nil, some e)) ∨
      (∃ v, format = BinaryFormatCode ∧
        SparseVector.DecodeBinary (some SparseVector.zero) (some bs) = .ok (some v, none) ∧
        SparseVectorCodec.DecodeValue m oid format (some bs) =
          .ok (GoAny.sparseVector v, none))) ∧
    (∃ e, SparseVectorCodec.DecodeValue m oid format (some []) = .ok (GoAny.nil, some e)) := by
  have key : ∀ bs : List Byte,
      (∃ e, SparseVectorCodec.DecodeValue m oid format (some bs) = .ok (GoAny.nil, some e)) ∨
      (∃ v, format = BinaryFormatCode ∧
        SparseVector.DecodeBinary (some SparseVector.zero) (some bs) = .ok (some v, none) ∧
        SparseVectorCodec.DecodeValue m oid format (some bs) =
          .ok (GoAny.sparseVector v, none)) := by
    intro bs
    by_cases hf : format = BinaryFormatCode
    · subst hf
      rw [DecodeValue_binary_decode, DecodeBinary_some, Option.getD_some]
      cases h : SparseVector.decode bs with
      | error e => exact Or.inl ⟨e, rfl⟩
      | ok v => exact Or.inr ⟨v, rfl, rfl, rfl⟩
    · exact Or.inl ⟨_, DecodeValue_other_format m oid format bs hf⟩
  refine ⟨rfl, ?_, key, ?_⟩
  · intro src
    cases src with
    | none => exact ⟨fun _ => rfl, fun _ => rfl⟩
    | some bs =>
      constructor
      · intro h
        rcases key bs with ⟨e, he⟩ | ⟨v, _, _, hv⟩
        · rw [he] at h; cases h
        · rw [hv] at h; cases h
      · intro h; cases h
  · by_cases hf : format = BinaryFormatCode
    · subst hf
      exact ⟨GoError.MalformedInput, by rw [DecodeValue_binary_decode]; rfl⟩
    · exact ⟨_, DecodeValue_other_format m oid format [] hf⟩

/-- C4: on present bytes and a format other than the binary format code, `DecodeValue`
returns a nil value with the error "Unable to decode sparsevec type", whatever the bytes
are (the binary codec is not run on them). -/
theorem DecodeValue_unsupported_format {Map : Type} (m : Option Map) (oid : Nat)
    (format : Int) (src : List Byte) (hf : format ≠ BinaryFormatCode) :
    SparseVectorCodec.DecodeValue m oid format (some src) =
        .ok (GoAny.nil, some (GoError.errorf "Unable to decode sparsevec type")) ∧
    SparseVectorCodec.PlanScan m oid format (GoAny.ptrSparseVector (some SparseVector.zero)) =
        none ∧
    ∀ src' : List Byte, SparseVectorCodec.DecodeValue m oid format (some src') =
        SparseVectorCodec.DecodeValue m oid format (some src) := by
  refine ⟨DecodeValue_other_format m oid format src hf, ?_, ?_⟩
  · simp [SparseVectorCodec.PlanScan, hf]
  · intro src'
    rw [DecodeValue_other_format m oid format src hf,
      DecodeValue_other_format m oid format src' hf]

/-- Witness for C4: twelve zero octets, which the binary format would decode, requested
in the text format. -/
theorem DecodeValue_unsupported_format_witness :
    SparseVectorCodec.DecodeValue (none : Option Nat) 0 TextFormatCode
        (some [0, 0, 0, 0, 0, 0, 0, 0, 0, 0, 0, 0]) =
        .ok (GoAny.nil, some (GoError.errorf "Unable to decode sparsevec type")) ∧
    SparseVectorCodec.PlanScan (none : Option Nat) 0 TextFormatCode
        (GoAny.ptrSparseVector (some SparseVector.zero)) = none ∧
    ∀ src' : List Byte, SparseVectorCodec.DecodeValue (none : Option Nat) 0 TextFormatCode
        (some src') =
        SparseVectorCodec.DecodeValue (none : Option Nat) 0 TextFormatCode
          (some [0, 0, 0, 0, 0, 0, 0, 0, 0, 0, 0, 0]) :=
  DecodeValue_unsupported_format none 0 TextFormatCode [0, 0, 0, 0, 0, 0, 0, 0, 0, 0, 0, 0]
    (by decide)

/-- C5: on present bytes in the binary format, `DecodeValue` returns the outcome of
`DecodeBinary` on a pointer to a zero-valued vector: that call either stores a vector
with a nil error, and `DecodeValue` returns that vector as a value with a nil error, or
returns an error leaving the vector untouched, and `DecodeValue` returns a nil value
with the same error. -/
theorem DecodeValue_binary_outcome {Map : Type} (m : Option Map) (oid : Nat)
    (src : List Byte) :
    (∀ v, SparseVector.DecodeBinary (some SparseVector.zero) (some src) = .ok (some v, none) →
      SparseVectorCodec.DecodeValue m oid BinaryFormatCode (some src) =
        .ok (GoAny.sparseVector v, none)) ∧
    (∀ p e, SparseVector.DecodeBinary (some SparseVector.zero) (some src) = .ok (p, some e) →
      SparseVectorCodec.DecodeValue m oid BinaryFormatCode (some src) =
        .ok (GoAny.nil, some e)) ∧
    ((∃ v, SparseVector.DecodeBinary (some SparseVector.zero) (some src) =
        .ok (some v, none)) ∨
     (∃ e, SparseVector.DecodeBinary (some SparseVector.zero) (some src) =
        .ok (some SparseVector.zero, some e))) ∧
    ScanPlan.Scan ScanPlan.scanPlanSparseVectorCodecBinary (some src)
        (GoAny.ptrSparseVector (some SparseVector.zero)) =
      (match SparseVector.DecodeBinary (some SparseVector.zero) (some src) with
       | .ok (p, err) => .ok (GoAny.ptrSparseVector p, err)
       | .panic k => .panic k) := by
  refine ⟨?_, ?_, ?_, rfl⟩ <;>
    simp only [DecodeValue_binary_decode, DecodeBinary_some, Option.getD_some]
  · intro v h
    cases hd : SparseVector.decode src with
    | error e => rw [hd] at h; cases h
    | ok w => rw [hd] at h; cases h; rfl
  · intro p e h
    cases hd : SparseVector.decode src with
    | error e' => rw [hd] at h; cases h; rfl
    | ok w => rw [hd] at h; cases h
  · cases hd : SparseVector.decode src with
    | error e => exact Or.inr ⟨e, rfl⟩
    | ok w => exact Or.inl ⟨w, rfl⟩

/-- C7: a present byte sequence shorter than 12 octets, decoded in the binary format,
makes the scan plan return `MalformedInput` (leaving its destination as it was) and
makes `DecodeValue` return a nil value with `MalformedInput`; neither panics nor
produces a vector. -/
theorem decode_short_input_malformed {Map : Type} (m : Option Map) (oid : Nat)
    (src : List Byte) (w : SparseVector) (h : src.length < 12) :
    ScanPlan.Scan ScanPlan.scanPlanSparseVectorCodecBinary (some src)
        (GoAny.ptrSparseVector (some w)) =
      .ok (GoAny.ptrSparseVector (some w), some GoError.MalformedInput) ∧
    SparseVectorCodec.DecodeValue m oid BinaryFormatCode (some src) =
      .ok (GoAny.nil, some GoError.MalformedInput) := by
  have hd : SparseVector.decode src = .error GoError.MalformedInput := by
    simp [SparseVector.decode, h]
  constructor
  · simp only [ScanPlan.Scan, scanPlanSparseVectorCodecBinary.Scan, DecodeBinary_some,
      Option.getD_some, hd]
  · rw [DecodeValue_binary_decode, hd]

/-- Witness for C7: the present zero-length byte sequence. -/
theorem decode_short_input_malformed_witness :
    ScanPlan.Scan ScanPlan.scanPlanSparseVectorCodecBinary (some [])
        (GoAny.ptrSparseVector (some SparseVector.zero)) =
      .ok (GoAny.ptrSparseVector (some SparseVector.zero), some GoError.MalformedInput) ∧
    SparseVectorCodec.DecodeValue (none : Option Nat) 0 BinaryFormatCode (some []) =
      .ok (GoAny.nil, some GoError.MalformedInput) :=
  decode_short_input_malformed none 0 [] SparseVector.zero (by decide)

/-! ## Round trip through the binary layout -/

theorem readUint32s_putUint32_append (n : Nat) (h : n < 4294967296) (rest : List Byte) :
    readUint32s (putUint32 n ++ rest) = n :: readUint32s rest := by
  simp only [putUint32, List.cons_append, List.nil_append, readUint32s, be32, List.cons.injEq,
    and_true]
  exact ⟨by omega, rfl⟩

theorem length_putUint32s (ns : List Nat) : (putUint32s ns).length = 4 * ns.length := by
  induction ns with
  | nil => rfl
  | cons n ns ih => simp [putUint32s, putUint32, ih]; omega

theorem readUint32s_putUint32s (ns : List Nat) (h : ∀ n ∈ ns, n < 4294967296) :
    readUint32s (putUint32s ns) = ns := by
  induction ns with
  | nil => rfl
  | cons n ns ih =>
    rw [putUint32s, readUint32s_putUint32_append n (h n (List.mem_cons_self _ _)),
      ih (fun k hk => h k (List.mem_cons_of_mem _ hk))]

theorem strictlyIncreasing_iff (l : List Nat) :
    strictlyIncreasing l = true ↔ List.Chain' (· < ·) l := by
  induction l with
  | nil => simp [strictlyIncreasing]
  | cons a l ih =>
    cases l with
    | nil => simp [strictlyIncreasing]
    | cons b l => simp [strictlyIncreasing, List.chain'_cons, ih]

theorem length_le_of_increasing_lt (l : List Nat) (d : Nat) (hc : List.Chain' (· < ·) l)
    (hb : ∀ i ∈ l, i < d) : l.length ≤ d := by
  have hp : l.Pairwise (· < ·) := List.chain'_iff_pairwise.mp hc
  have hn : l.Nodup := hp.imp (fun h => Nat.ne_of_lt h)
  have hs : l ⊆ List.range d := fun i hi => List.mem_range.mpr (hb i hi)
  have := (List.subperm_of_subset hn hs).length_le
  simpa using this

theorem map_f32OfBits_val (vs : List F32) : (vs.map Fin.val).map f32OfBits = vs := by
  induction vs with
  | nil => rfl
  | cons x xs ih =>
    simp only [List.map_cons, ih, List.cons.injEq, and_true]
    apply Fin.ext
    simp [f32OfBits, Nat.mod_eq_of_lt x.isLt]

theorem uint32OfNat_val (d : Uint32) : uint32OfNat d.val = d := by
  apply Fin.ext
  simp [uint32OfNat, Nat.mod_eq_of_lt d.isLt]

/-- The parse inverts the layout on well-formed vectors. -/
theorem decode_layout (v : SparseVector) (hw : v.WellFormed) :
    SparseVector.decode v.layout = .ok v := by
  obtain ⟨hc, hb⟩ := hw
  have hd : v.dimension.val < 4294967296 := v.dimension.isLt
  have hlen : v.entries.length ≤ v.dimension.val := by
    have := length_le_of_increasing_lt v.indices v.dimension.val hc hb
    simpa [SparseVector.indices] using this
  have hn : v.entries.length < 4294967296 := by omega
  have hil : v.indices.length = v.entries.length := by simp [SparseVector.indices]
  have hvl : (v.values.map Fin.val).length = v.entries.length := by simp [SparseVector.values]
  have hlen12 : ¬ v.layout.length < 12 := by
    simp [SparseVector.layout, putUint32]
  have hhead : readUint32s (v.layout.take 12) = [v.dimension.val, v.entries.length, 0] := by
    simp only [SparseVector.layout, putUint32, List.cons_append, List.nil_append,
      List.take_succ_cons, List.take_zero, readUint32s, be32]
    refine congrArg₂ _ (by omega) (congrArg₂ _ (by omega) rfl)
  have hbody : v.layout.drop 12 =
      putUint32s v.indices ++ putUint32s (v.values.map Fin.val) := by
    simp [SparseVector.layout, putUint32]
  have hblen : (putUint32s v.indices ++ putUint32s (v.values.map Fin.val)).length =
      8 * v.entries.length := by
    rw [List.length_append, length_putUint32s, length_putUint32s, hil, hvl]; omega
  have htake : (putUint32s v.indices ++ putUint32s (v.values.map Fin.val)).take
      (4 * v.entries.length) = putUint32s v.indices := by
    apply List.take_left'
    rw [length_putUint32s, hil]
  have hdrop : (putUint32s v.indices ++ putUint32s (v.values.map Fin.val)).drop
      (4 * v.entries.length) = putUint32s (v.values.map Fin.val) := by
    apply List.drop_left'
    rw [length_putUint32s, hil]
  have hidx : readUint32s (putUint32s v.indices) = v.indices :=
    readUint32s_putUint32s _ (fun i hi => Nat.lt_trans (hb i hi) hd)
  have hval : readUint32s (putUint32s (v.values.map Fin.val)) = v.values.map Fin.val :=
    readUint32s_putUint32s _ (fun n hn => by
      obtain ⟨x, _, rfl⟩ := List.mem_map.mp hn
      exact x.isLt)
  have hall : v.indices.all (fun i => decide (i < v.dimension.val)) = true := by
    simpa using hb
  have hinc : strictlyIncreasing v.indices = true := (strictlyIncreasing_iff _).mpr hc
  have hzip : v.indices.zip v.values = v.entries := by
    exact (List.zip_of_prod rfl rfl).symm
  simp only [SparseVector.decode, hlen12, if_false, hhead, hbody, hblen, htake, hdrop, hidx,
    hval, map_f32OfBits_val, hall, hinc, hzip, uint32OfNat_val, List.getD_cons_zero, List.getD_cons_succ,
    ne_eq, not_true_eq_false, Bool.and_self, if_true]

/-- The end-to-end example of the layout: dimension 3 with entries `(0, 1.0)` and
`(2, 2.0)` is written as the seven big-endian words
`00000003 00000002 00000000 00000000 00000002 3F800000 40000000`. -/
theorem layout_example :
    (SparseVector.mk 3 [(0, 1065353216), (2, 1073741824)]).layout =
      [0, 0, 0, 3, 0, 0, 0, 2, 0, 0, 0, 0, 0, 0, 0, 0, 0, 0, 0, 2,
       0x3F, 0x80, 0, 0, 0x40, 0, 0, 0] := by
  decide

/-- C6: round trip through the dispatcher. For every well-formed sparse vector `v`
(indices strictly increasing, hence unique, and below the dimension), `PlanEncode` in
the binary format returns a plan whose `Encode` writes `v` into an empty buffer without
error; on those bytes the plan returned by `PlanScan` in the binary format stores a
vector equal to `v` in its destination with a nil error, and `DecodeValue` in the binary
format returns a vector equal to `v` with a nil error; the decoded vector therefore has
the same dense `Slice()`. -/
theorem roundtrip_through_dispatcher {Map : Type} (m : Option Map) (oid : Nat)
    (v w : SparseVector) (hw : v.WellFormed) :
    ∃ (pe : EncodePlan) (ps : ScanPlan) (bytes : List Byte) (r : SparseVector),
      SparseVectorCodec.PlanEncode m oid BinaryFormatCode (GoAny.sparseVector v) = some pe ∧
      pe.Encode (GoAny.sparseVector v) (some []) = .ok (some bytes, none) ∧
      SparseVectorCodec.PlanScan m oid BinaryFormatCode (GoAny.ptrSparseVector (some w)) =
        some ps ∧
      ps.Scan (some bytes) (GoAny.ptrSparseVector (some w)) =
        .ok (GoAny.ptrSparseVector (some r), none) ∧
      SparseVectorCodec.DecodeValue m oid BinaryFormatCode (some bytes) =
        .ok (GoAny.sparseVector r, none) ∧
      r = v ∧ r.Slice = v.Slice := by
  refine ⟨EncodePlan.encodePlanSparseVectorCodecBinary,
    ScanPlan.scanPlanSparseVectorCodecBinary, v.layout, v, ?_, ?_, ?_, ?_, ?_, rfl, rfl⟩
  · simp [SparseVectorCodec.PlanEncode]
  · simp [EncodePlan.Encode, encodePlanSparseVectorCodecBinary.Encode,
      SparseVector.EncodeBinary]
  · simp [SparseVectorCodec.PlanScan]
  · simp only [ScanPlan.Scan, scanPlanSparseVectorCodecBinary.Scan, DecodeBinary_some,
      Option.getD_some, decode_layout v hw]
  · rw [DecodeValue_binary_decode, decode_layout v hw]

/-- The test vector: `NewSparseVector([1, 1, 2])` keeps all three coordinates. -/
theorem NewSparseVector_example :
    NewSparseVector [1065353216, 1065353216, 1073741824] =
      SparseVector.mk 3 [(0, 1065353216), (1, 1065353216), (2, 1073741824)] := by
  decide

/-- The test vector is well formed. -/
theorem NewSparseVector_example_wellFormed :
    (NewSparseVector [1065353216, 1065353216, 1073741824]).WellFormed := by
  rw [NewSparseVector_example]
  simp only [SparseVector.WellFormed, SparseVector.indices, List.map_cons, List.map_nil,
    List.chain'_cons, List.chain'_singleton, List.mem_cons, List.mem_singleton,
    List.not_mem_nil, or_false, forall_eq_or_imp, forall_eq]
  decide

/-- The bytes that the test vector is written as. -/
theorem NewSparseVector_example_layout :
    (NewSparseVector [1065353216, 1065353216, 1073741824]).layout =
      [0, 0, 0, 3, 0, 0, 0, 3, 0, 0, 0, 0,
       0, 0, 0, 0, 0, 0, 0, 1, 0, 0, 0, 2,
       0x3F, 0x80, 0, 0, 0x3F, 0x80, 0, 0, 0x40, 0, 0, 0] := by
  decide

/-- Witness for C6: `NewSparseVector([1, 1, 2])` is well formed, its dense form is
`[1, 1, 2]`, and it survives the round trip. -/
theorem roundtrip_through_dispatcher_witness :
    (NewSparseVector [1065353216, 1065353216, 1073741824]).WellFormed ∧
    (NewSparseVector [1065353216, 1065353216, 1073741824]).Slice =
      [1065353216, 1065353216, 1073741824] ∧
    ∃ (pe : EncodePlan) (ps : ScanPlan) (bytes : List Byte) (r : SparseVector),
      SparseVectorCodec.PlanEncode (none : Option Nat) 0 BinaryFormatCode
        (GoAny.sparseVector (NewSparseVector [1065353216, 1065353216, 1073741824])) =
        some pe ∧
      pe.Encode (GoAny.sparseVector (NewSparseVector [1065353216, 1065353216, 1073741824]))
        (some []) = .ok (some bytes, none) ∧
      SparseVectorCodec.PlanScan (none : Option Nat) 0 BinaryFormatCode
        (GoAny.ptrSparseVector (some SparseVector.zero)) = some ps ∧
      ps.Scan (some bytes) (GoAny.ptrSparseVector (some SparseVector.zero)) =
        .ok (GoAny.ptrSparseVector (some r), none) ∧
      SparseVectorCodec.DecodeValue (none : Option Nat) 0 BinaryFormatCode (some bytes) =
        .ok (GoAny.sparseVector r, none) ∧
      r = NewSparseVector [1065353216, 1065353216, 1073741824] ∧
      r.Slice = (NewSparseVector [1065353216, 1065353216, 1073741824]).Slice :=
  ⟨NewSparseVector_example_wellFormed, by decide,
    roundtrip_through_dispatcher none 0
      (NewSparseVector [1065353216, 1065353216, 1073741824]) SparseVector.zero
      NewSparseVector_example_wellFormed⟩

/-! ## The unchecked assertions -/

/-- C9: the assertions inside the plans succeed on what the dispatcher accepted. If
`PlanEncode` returns a plan for `value`, then `value` holds a `SparseVector` and the
plan's `Encode` is that vector's `EncodeBinary`, for every buffer; if `PlanScan` returns
a plan for `target`, then `target` holds a `*SparseVector` and the plan's `Scan` never
raises the interface-conversion panic, for every source; and `DecodeValue` never raises
it either. -/
theorem plan_assertions_succeed {Map : Type} (m : Option Map) (oid : Nat) (format : Int)
    (value target : GoAny) :
    (∀ pe, SparseVectorCodec.PlanEncode m oid format value = some pe →
      ∃ v, value = GoAny.sparseVector v ∧
        ∀ buf, pe.Encode value buf = .ok (v.EncodeBinary buf)) ∧
    (∀ ps, SparseVectorCodec.PlanScan m oid format target = some ps →
      ∃ p, target = GoAny.ptrSparseVector p ∧
        ∀ src, ps.Scan src target ≠ .panic PanicKind.interfaceConversion) ∧
    (∀ src, SparseVectorCodec.DecodeValue m oid format src ≠
      .panic PanicKind.interfaceConversion) := by
  refine ⟨?_, ?_, ?_⟩
  · intro pe h
    cases value with
    | sparseVector v =>
      refine ⟨v, rfl, fun buf => ?_⟩
      cases pe; rfl
    | _ => simp [SparseVectorCodec.PlanEncode] at h
  · intro ps h
    cases target with
    | ptrSparseVector p =>
      refine ⟨p, rfl, fun src => ?_⟩
      cases ps
      simp only [ScanPlan.Scan, scanPlanSparseVectorCodecBinary.Scan,
        SparseVector.DecodeBinary]
      cases SparseVector.decode (src.getD []) with
      | error e => simp
      | ok v => cases p <;> simp
    | _ => simp [SparseVectorCodec.PlanScan] at h
  · intro src
    cases src with
    | none => simp [SparseVectorCodec.DecodeValue]
    | some bs =>
      by_cases hf : format = BinaryFormatCode
      · subst hf
        rw [DecodeValue_binary_decode]
        cases SparseVector.decode bs <;> simp
      · rw [DecodeValue_other_format m oid format bs hf]; simp

/-- Witness for C9: a one-entry vector and a pointer to a zero-valued vector in the
binary format: both plans exist, and the conclusions hold for them. -/
theorem plan_assertions_succeed_witness :
    SparseVectorCodec.PlanEncode (none : Option Nat) 0 BinaryFormatCode
      (GoAny.sparseVector (SparseVector.mk 1 [(0, 5)])) =
      some EncodePlan.encodePlanSparseVectorCodecBinary ∧
    SparseVectorCodec.PlanScan (none : Option Nat) 0 BinaryFormatCode
      (GoAny.ptrSparseVector (some SparseVector.zero)) =
      some ScanPlan.scanPlanSparseVectorCodecBinary ∧
    (∃ v, GoAny.sparseVector (SparseVector.mk 1 [(0, 5)]) = GoAny.sparseVector v ∧
      ∀ buf, EncodePlan.Encode EncodePlan.encodePlanSparseVectorCodecBinary
        (GoAny.sparseVector (SparseVector.mk 1 [(0, 5)])) buf = .ok (v.EncodeBinary buf)) ∧
    (∃ p, GoAny.ptrSparseVector (some SparseVector.zero) = GoAny.ptrSparseVector p ∧
      ∀ src, ScanPlan.Scan ScanPlan.scanPlanSparseVectorCodecBinary src
        (GoAny.ptrSparseVector (some SparseVector.zero)) ≠
        .panic PanicKind.interfaceConversion) :=
  ⟨by decide, by decide,
    (plan_assertions_succeed (none : Option Nat) 0 BinaryFormatCode
      (GoAny.sparseVector (SparseVector.mk 1 [(0, 5)]))
      (GoAny.ptrSparseVector (some SparseVector.zero))).1 _ (by decide),
    (plan_assertions_succeed (none : Option Nat) 0 BinaryFormatCode
      (GoAny.sparseVector (SparseVector.mk 1 [(0, 5)]))
      (GoAny.ptrSparseVector (some SparseVector.zero))).2.1 _ (by decide)⟩

end PgvectorGo
